import Mathlib

/-!
Verification development for the `rustfest-2018-workshop` chapter-3 node
(`src/chapter-3/src/main.rs`): a minimal libp2p floodsub pub/sub node.

The repository's own code is the 70-line `main` function; the engine it
exercises (floodsub, swarm, multiaddr, the platform module) lives outside
the sources, so those parts are modelled from the specification, while
everything `main` itself does (the UTF-8 display handler, the stdin
publish handler, the startup action sequence, the future composition) is
embedded directly from the source.
-/

/-! ## Futures composition (main.rs lines 139-142)

`main` builds `final_future` as

    swarm_future
      .select(floodsub_rx).map_err(|(err, _)| err).and_then(|(_, n)| n)
      .select(stdin_future).map_err(|(err, _)| err).and_then(|(_, n)| n)

We embed the futures 0.1 semantics of this combinator chain denotationally:
a future is `none` (never resolves) or `some (t, ok)` — it resolves at
time `t`, successfully iff `ok`.  `Select` resolves with whichever side
resolves first (the first argument winning ties, since it is polled
first), yielding the resolved side's outcome together with the still
pending side; `map_err (|(err, _)| err)` discards the pending side on
error, so an error of either side is final at the time it occurs; and
`and_then (|(_, n)| n)` continues with the pending side `n` after a
success, so a success of one side merely hands control to the other. -/

/-- Denotation of a future: `none` never resolves, `some (t, ok)` resolves
at time `t` with success iff `ok`. -/
abbrev SFut := Option (Nat × Bool)

/-- Embedding of `x.select(y).map_err(|(err, _)| err).and_then(|(_, n)| n)`
from main.rs lines 140/141 under the futures 0.1 semantics: the first
side to resolve wins (ties to `x`); an error is propagated at once, a
success continues with the remaining future. -/
def selectThen : SFut → SFut → SFut
  | none, none => none
  | some (ta, oka), none => if oka then none else some (ta, false)
  | none, some (tb, okb) => if okb then none else some (tb, false)
  | some (ta, oka), some (tb, okb) =>
    if ta ≤ tb then
      if oka then some (tb, okb) else some (ta, false)
    else
      if okb then some (ta, oka) else some (tb, false)

/-- `final_future` from main.rs lines 139-141: the pairwise combinator
chain applied to the Swarm driving future, the floodsub receive loop and
the stdin publishing loop. -/
def finalFuture (swarmFut floodsubRx stdinFut : SFut) : SFut :=
  selectThen (selectThen swarmFut floodsubRx) stdinFut

/-! ## FloodSub engine (modelled from the spec)

Modelled from the spec: the PubSub Engine of §4.4 (dedup cache,
subscription set, flooding algorithm) is library code not present in the
sources; the definitions below follow the spec's flooding algorithm
verbatim: on receiving a frame from connection `C` for topic `T` with
identity `I`, if `I` is already in the dedup cache, discard (no
re-delivery, no re-broadcast); otherwise insert `I`, deliver to the local
subscriber stream iff `T` is in the local subscription set, and
re-broadcast the frame to every open connection other than `C` that has
advertised interest in `T`. -/

/-- A wire frame: originating connection, topic identifier, message
identity (dedup token) and payload bytes. -/
structure Frame where
  conn : Nat
  topic : String
  ident : Nat
  data : List Nat
  deriving Repr, DecidableEq

/-- A message surfaced on the local subscriber stream. -/
structure Message where
  topic : String
  data : List Nat
  deriving Repr, DecidableEq

/-- Modelled from the spec: the PubSub Engine state — dedup cache (seen
message identities), local subscription set, and the open connections
together with the topics each has advertised interest in. -/
structure Engine where
  seen : List Nat
  subs : List String
  conns : List (Nat × List String)
  deriving Repr, DecidableEq

/-- Modelled from the spec: the flooding algorithm for one inbound frame.
Returns the new engine state, the messages delivered locally (zero or
one) and the re-broadcast frames (destination connection, frame). -/
def handleFrame (e : Engine) (fr : Frame) :
    Engine × List Message × List (Nat × Frame) :=
  if fr.ident ∈ e.seen then
    (e, [], [])
  else
    ({ e with seen := fr.ident :: e.seen },
     if fr.topic ∈ e.subs then [⟨fr.topic, fr.data⟩] else [],
     (e.conns.filter (fun c => c.1 ≠ fr.conn ∧ fr.topic ∈ c.2)).map
       (fun c => (c.1, fr)))

/-- Process a sequence of inbound frames, accumulating local deliveries
and re-broadcasts in order. -/
def processFrames (e : Engine) :
    List Frame → Engine × List Message × List (Nat × Frame)
  | [] => (e, [], [])
  | fr :: rest =>
    let (e1, d1, b1) := handleFrame e fr
    let (e2, d2, b2) := processFrames e1 rest
    (e2, d1 ++ d2, b1 ++ b2)

/-! ## UTF-8 (main.rs lines 114 and 133)

`main` calls `String::from_utf8(msg.data)` on delivered payloads and
`msg.into_bytes()` on stdin lines.  We embed Rust's UTF-8 semantics over
`List Nat`: a string is a list of Unicode scalar values, its byte form a
list of bytes.  `utf8Decode` performs exactly the validation
`String::from_utf8` does (continuation-byte ranges, no overlong forms, no
surrogates, max scalar `0x10FFFF`); `utf8EncodeChar`/`utf8Encode` are the
standard encoding used by `String::into_bytes`. -/

/-- A Unicode scalar value: below `0x110000` and not a surrogate. -/
def ValidScalar (v : Nat) : Prop :=
  v < 0x110000 ∧ ¬(0xd800 ≤ v ∧ v ≤ 0xdfff)

instance (v : Nat) : Decidable (ValidScalar v) := by
  unfold ValidScalar; infer_instance

/-- UTF-8 encoding of one scalar value (as `String::into_bytes` emits). -/
def utf8EncodeChar (v : Nat) : List Nat :=
  if v < 0x80 then [v]
  else if v < 0x800 then [0xc0 + v / 64, 0x80 + v % 64]
  else if v < 0x10000 then
    [0xe0 + v / 4096, 0x80 + (v / 64) % 64, 0x80 + v % 64]
  else
    [0xf0 + v / 262144, 0x80 + (v / 4096) % 64, 0x80 + (v / 64) % 64,
     0x80 + v % 64]

/-- UTF-8 encoding of a whole string (list of scalar values). -/
def utf8Encode (l : List Nat) : List Nat :=
  (l.map utf8EncodeChar).flatten

/-- A UTF-8 continuation byte. -/
def UtfCont (b : Nat) : Prop := 0x80 ≤ b ∧ b ≤ 0xbf

instance (b : Nat) : Decidable (UtfCont b) := by
  unfold UtfCont; infer_instance

/-- Scalar value of a two-byte sequence. -/
def utfVal2 (b b2 : Nat) : Nat := (b - 0xc0) * 64 + (b2 - 0x80)

/-- Scalar value of a three-byte sequence. -/
def utfVal3 (b b2 b3 : Nat) : Nat :=
  (b - 0xe0) * 4096 + (b2 - 0x80) * 64 + (b3 - 0x80)

/-- Scalar value of a four-byte sequence. -/
def utfVal4 (b b2 b3 b4 : Nat) : Nat :=
  (b - 0xf0) * 262144 + (b2 - 0x80) * 4096 + (b3 - 0x80) * 64 + (b4 - 0x80)

/-- A valid two-byte sequence: continuation in range, not overlong. -/
def Utf8Ok2 (b b2 : Nat) : Prop := UtfCont b2 ∧ 0x80 ≤ utfVal2 b b2

/-- A valid three-byte sequence: continuations in range, not overlong,
not a surrogate. -/
def Utf8Ok3 (b b2 b3 : Nat) : Prop :=
  UtfCont b2 ∧ UtfCont b3 ∧ 0x800 ≤ utfVal3 b b2 b3 ∧
    ¬(0xd800 ≤ utfVal3 b b2 b3 ∧ utfVal3 b b2 b3 ≤ 0xdfff)

/-- A valid four-byte sequence: continuations in range, in scalar range. -/
def Utf8Ok4 (b b2 b3 b4 : Nat) : Prop :=
  UtfCont b2 ∧ UtfCont b3 ∧ UtfCont b4 ∧
    0x10000 ≤ utfVal4 b b2 b3 b4 ∧ utfVal4 b b2 b3 b4 ≤ 0x10ffff

instance (b b2 : Nat) : Decidable (Utf8Ok2 b b2) := by
  unfold Utf8Ok2; infer_instance

instance (b b2 b3 : Nat) : Decidable (Utf8Ok3 b b2 b3) := by
  unfold Utf8Ok3; infer_instance

instance (b b2 b3 b4 : Nat) : Decidable (Utf8Ok4 b b2 b3 b4) := by
  unfold Utf8Ok4; infer_instance

/-- UTF-8 decoding with full validation, as `String::from_utf8` performs:
rejects bad continuation bytes, truncated sequences, overlong encodings,
surrogates and scalars above `0x10FFFF`. -/
def utf8Decode : List Nat → Option (List Nat)
  | [] => some []
  | [b] =>
    if b < 0x80 then some [b] else none
  | [b, b2] =>
    if b < 0x80 then (utf8Decode [b2]).map (fun l => b :: l)
    else if 0xc0 ≤ b ∧ b ≤ 0xdf then
      if Utf8Ok2 b b2 then some [utfVal2 b b2] else none
    else none
  | [b, b2, b3] =>
    if b < 0x80 then (utf8Decode [b2, b3]).map (fun l => b :: l)
    else if 0xc0 ≤ b ∧ b ≤ 0xdf then
      if Utf8Ok2 b b2 then (utf8Decode [b3]).map (fun l => utfVal2 b b2 :: l)
      else none
    else if 0xe0 ≤ b ∧ b ≤ 0xef then
      if Utf8Ok3 b b2 b3 then some [utfVal3 b b2 b3] else none
    else none
  | b :: b2 :: b3 :: b4 :: rest =>
    if b < 0x80 then
      (utf8Decode (b2 :: b3 :: b4 :: rest)).map (fun l => b :: l)
    else if 0xc0 ≤ b ∧ b ≤ 0xdf then
      if Utf8Ok2 b b2 then
        (utf8Decode (b3 :: b4 :: rest)).map (fun l => utfVal2 b b2 :: l)
      else none
    else if 0xe0 ≤ b ∧ b ≤ 0xef then
      if Utf8Ok3 b b2 b3 then
        (utf8Decode (b4 :: rest)).map (fun l => utfVal3 b b2 b3 :: l)
      else none
    else if 0xf0 ≤ b ∧ b ≤ 0xf4 then
      if Utf8Ok4 b b2 b3 b4 then
        (utf8Decode rest).map (fun l => utfVal4 b b2 b3 b4 :: l)
      else none
    else none

theorem utf8Decode_encodeChar_append (v : Nat) (hv : ValidScalar v) (r : List Nat) :
    utf8Decode (utf8EncodeChar v ++ r) = (utf8Decode r).map (fun l => v :: l) := by
  obtain ⟨hlt, hsur⟩ := hv
  unfold utf8EncodeChar
  split_ifs with h1 h2 h3
  · match r with
    | [] =>
      simp only [List.cons_append, List.nil_append]
      conv_lhs => rw [utf8Decode]
      rw [if_pos h1]; rfl
    | [x] =>
      simp only [List.cons_append, List.nil_append]
      conv_lhs => rw [utf8Decode]
      rw [if_pos h1]
    | [x, y] =>
      simp only [List.cons_append, List.nil_append]
      conv_lhs => rw [utf8Decode]
      rw [if_pos h1]
    | x :: y :: z :: rest =>
      simp only [List.cons_append, List.nil_append]
      conv_lhs => rw [utf8Decode]
      rw [if_pos h1]
  · have hok : Utf8Ok2 (0xc0 + v / 64) (0x80 + v % 64) := by
      unfold Utf8Ok2 UtfCont utfVal2; omega
    have hv2 : utfVal2 (0xc0 + v / 64) (0x80 + v % 64) = v := by unfold utfVal2; omega
    match r with
    | [] =>
      simp only [List.cons_append, List.nil_append]
      conv_lhs => rw [utf8Decode]
      rw [if_neg (by omega), if_pos (by omega), if_pos hok, hv2]; rfl
    | [x] =>
      simp only [List.cons_append, List.nil_append]
      conv_lhs => rw [utf8Decode]
      rw [if_neg (by omega), if_pos (by omega), if_pos hok, hv2]
    | x :: y :: rest2 =>
      simp only [List.cons_append, List.nil_append]
      conv_lhs => rw [utf8Decode]
      rw [if_neg (by omega), if_pos (by omega), if_pos hok, hv2]
  · have hok : Utf8Ok3 (0xe0 + v / 4096) (0x80 + v / 64 % 64) (0x80 + v % 64) := by
      unfold Utf8Ok3 UtfCont utfVal3; omega
    have hv3 : utfVal3 (0xe0 + v / 4096) (0x80 + v / 64 % 64) (0x80 + v % 64) = v := by
      unfold utfVal3; omega
    match r with
    | [] =>
      simp only [List.cons_append, List.nil_append]
      conv_lhs => rw [utf8Decode]
      rw [if_neg (by omega), if_neg (by omega), if_pos (by omega), if_pos hok, hv3]; rfl
    | x :: rest =>
      simp only [List.cons_append, List.nil_append]
      conv_lhs => rw [utf8Decode]
      rw [if_neg (by omega), if_neg (by omega), if_pos (by omega), if_pos hok, hv3]
  · have hok : Utf8Ok4 (0xf0 + v / 262144) (0x80 + v / 4096 % 64) (0x80 + v / 64 % 64)
        (0x80 + v % 64) := by
      unfold Utf8Ok4 UtfCont utfVal4; omega
    have hv4 : utfVal4 (0xf0 + v / 262144) (0x80 + v / 4096 % 64) (0x80 + v / 64 % 64)
        (0x80 + v % 64) = v := by unfold utfVal4; omega
    simp only [List.cons_append, List.nil_append]
    conv_lhs => rw [utf8Decode]
    rw [if_neg (by omega), if_neg (by omega), if_neg (by omega), if_pos (by omega),
      if_pos hok, hv4]

theorem utf8Decode_utf8Encode (l : List Nat) (h : ∀ v ∈ l, ValidScalar v) :
    utf8Decode (utf8Encode l) = some l := by
  induction l with
  | nil => rw [utf8Encode]; rfl
  | cons v rest ih =>
    have hv : ValidScalar v := h v (List.mem_cons_self v rest)
    have hrest : ∀ w ∈ rest, ValidScalar w := fun w hw => h w (List.mem_cons_of_mem v hw)
    unfold utf8Encode
    simp only [List.map_cons, List.flatten_cons]
    rw [utf8Decode_encodeChar_append v hv]
    rw [show (List.map utf8EncodeChar rest).flatten = utf8Encode rest from rfl, ih hrest]
    rfl

/-! ## The floodsub receive handler (main.rs lines 112-121)

    let floodsub_rx = floodsub_rx
        .for_each(|msg| {
            if let Ok(msg) = String::from_utf8(msg.data) {
                println!("> {}", msg);
            } else {
                println!("Received non-utf8 message");
            }
            Ok(())
        });

Each delivered message produces exactly one output line — the decoded
text on success, the fixed notice otherwise — and the closure always
returns `Ok(())`. -/

/-- One line written to the output sink: either the decoded text of a
message (`println!("> {}", msg)`) or the fixed non-UTF-8 notice
(`println!("Received non-utf8 message")`). -/
inductive OutLine
  | text (s : List Nat)
  | notice
  deriving Repr, DecidableEq

/-- The body of the `for_each` closure at main.rs lines 113-121: the
output line it prints for one delivered message. -/
def displayLine (m : Message) : OutLine :=
  match utf8Decode m.data with
  | some s => .text s
  | none => .notice

/-- Embedding of stream `for_each` with an effect: the closure returns a
list of emitted effects and a result; the stream stops at the first
closure error, and completes with `Ok(())` when the stream is exhausted. -/
def forEachAcc (f : α → List β × Except ε Unit) : List α → List β × Except ε Unit
  | [] => ([], Except.ok ())
  | a :: rest =>
    match f a with
    | (out, Except.ok _) =>
      let (out2, res) := forEachAcc f rest
      (out ++ out2, res)
    | (out, Except.error e) => (out, Except.error e)

/-- The `for_each` closure of main.rs lines 113-121 as an effectful step:
one output line, then `Ok(())`. -/
def rxClosure (m : Message) : List OutLine × Except String Unit :=
  ([displayLine m], Except.ok ())

/-- The whole `floodsub_rx.for_each(...)` loop applied to a finite
sequence of delivered messages: the lines printed and the loop result. -/
def runFloodsubRx (msgs : List Message) : List OutLine × Except String Unit :=
  forEachAcc rxClosure msgs

/-! ## Topic and the stdin publish handler (main.rs lines 105-110, 129-136) -/

/-- A topic identity. Modelled from the spec: `TopicBuilder` turns a
human-readable name into a canonical topic identifier, and equal names
must produce equal identifiers. -/
structure Topic where
  id : String
  deriving Repr, DecidableEq

/-- Modelled from the spec: `TopicBuilder::new(name).build()` — the
canonical topic identity built from a name. -/
def buildTopic (name : String) : Topic := ⟨name⟩

/-- The topic built at main.rs lines 105-106:
`TopicBuilder::new("workshop-chapter2-topic").build()`. -/
def theTopic : Topic := buildTopic "workshop-chapter2-topic"

/-- One `publish` call: the topic published under and the payload bytes. -/
structure PublishCall where
  topic : Topic
  data : List Nat
  deriving Repr, DecidableEq

/-- The body of the stdin `for_each` closure at main.rs lines 132-136:
`floodsub_controller.publish(&topic, msg.into_bytes()); Ok(())` — one
publish of the line's UTF-8 bytes under `theTopic`, then `Ok(())`. -/
def stdinClosure (line : List Nat) : List PublishCall × Except String Unit :=
  ([⟨theTopic, utf8Encode line⟩], Except.ok ())

/-- The whole `stdin.for_each(...)` loop applied to a finite sequence of
input lines (each a string, i.e. a list of Unicode scalar values): the
publish calls made and the loop result. -/
def runStdin (lines : List (List Nat)) : List PublishCall × Except String Unit :=
  forEachAcc stdinClosure lines

/-! ## Addresses (modelled from the spec)

Modelled from the spec: `Multiaddr` and its string format
`/ip4/<dotted-quad>/tcp/<port>[/ws]` (spec §6) are library code not
present in the sources; `main` parses two such literals (main.rs lines
96-98 and 123-125).  An address string is a list of characters. -/

/-- Modelled from the spec: an address — an IPv4 endpoint, a TCP port and
an optional trailing websocket carrier layer. -/
structure Multiaddr where
  ip0 : Nat
  ip1 : Nat
  ip2 : Nat
  ip3 : Nat
  port : Nat
  ws : Bool
  deriving Repr, DecidableEq

/-- A well-formed address value: IPv4 components are bytes, the port fits
in 16 bits. -/
def Multiaddr.WF (m : Multiaddr) : Prop :=
  m.ip0 ≤ 255 ∧ m.ip1 ≤ 255 ∧ m.ip2 ≤ 255 ∧ m.ip3 ≤ 255 ∧ m.port ≤ 65535

/-- The decimal digit character for `d < 10`. -/
def digitChar (d : Nat) : Char := Char.ofNat (48 + d)

/-- Numeric value of a digit character. -/
def digitVal (c : Char) : Nat := c.toNat - 48

/-- Decimal rendering of a natural number (most significant digit
first). -/
def natToStr (n : Nat) : List Char :=
  if n < 10 then [digitChar n]
  else natToStr (n / 10) ++ [digitChar (n % 10)]
termination_by n
decreasing_by simp_wf; omega

/-- Greedy digit scanner: consumes leading digits, accumulating their
value onto `acc`. -/
def parseDigits (acc : Nat) : List Char → Nat × List Char
  | [] => (acc, [])
  | c :: cs =>
    if c.isDigit then parseDigits (acc * 10 + digitVal c) cs else (acc, c :: cs)

/-- Parse a decimal number at the head of the input (at least one
digit), returning its value and the rest. -/
def parseNatPrefix : List Char → Option (Nat × List Char)
  | [] => none
  | c :: cs => if c.isDigit then some (parseDigits (digitVal c) cs) else none

/-- Consume an expected literal from the head of the input. -/
def dropLit : List Char → List Char → Option (List Char)
  | [], s => some s
  | _ :: _, [] => none
  | c :: cs, d :: ds => if c = d then dropLit cs ds else none

/-- Modelled from the spec: parsing of the address string format
`/ip4/<dotted-quad>/tcp/<port>[/ws]`; invalid strings fail to parse. -/
def multiaddrParse (s : List Char) : Option Multiaddr := do
  let s ← dropLit "/ip4/".toList s
  let (a, s) ← parseNatPrefix s
  let s ← dropLit ".".toList s
  let (b, s) ← parseNatPrefix s
  let s ← dropLit ".".toList s
  let (c, s) ← parseNatPrefix s
  let s ← dropLit ".".toList s
  let (d, s) ← parseNatPrefix s
  let s ← dropLit "/tcp/".toList s
  let (p, s) ← parseNatPrefix s
  if a ≤ 255 ∧ b ≤ 255 ∧ c ≤ 255 ∧ d ≤ 255 ∧ p ≤ 65535 then
    if s = [] then some ⟨a, b, c, d, p, false⟩
    else if s = "/ws".toList then some ⟨a, b, c, d, p, true⟩
    else none
  else none

/-- Modelled from the spec: re-serialization of an address back to its
string format. -/
def multiaddrSerialize (m : Multiaddr) : List Char :=
  "/ip4/".toList ++ natToStr m.ip0 ++ ".".toList ++ natToStr m.ip1 ++
    ".".toList ++ natToStr m.ip2 ++ ".".toList ++ natToStr m.ip3 ++
    "/tcp/".toList ++ natToStr m.port ++ (if m.ws then "/ws".toList else [])

/-- Value accumulated by scanning a digit string onto `acc`. -/
def strVal (acc : Nat) (l : List Char) : Nat :=
  l.foldl (fun a c => a * 10 + digitVal c) acc

theorem dropLit_append (lit r : List Char) : dropLit lit (lit ++ r) = some r := by
  induction lit with
  | nil => rfl
  | cons c cs ih => simp [dropLit, ih]

theorem parseDigits_digits_append (l : List Char) (acc : Nat) (r : List Char)
    (h : ∀ c ∈ l, c.isDigit = true) :
    parseDigits acc (l ++ r) = parseDigits (strVal acc l) r := by
  induction l generalizing acc with
  | nil => rfl
  | cons c cs ih =>
    have hc : c.isDigit = true := h c (List.mem_cons_self c cs)
    have hcs : ∀ x ∈ cs, x.isDigit = true := fun x hx => h x (List.mem_cons_of_mem c hx)
    simp only [List.cons_append, parseDigits, hc, if_true, strVal, List.foldl_cons]
    exact ih (acc * 10 + digitVal c) hcs

theorem parseDigits_stop (acc : Nat) (r : List Char)
    (h : ∀ c cs, r = c :: cs → c.isDigit = false) :
    parseDigits acc r = (acc, r) := by
  match r with
  | [] => rfl
  | c :: cs => simp only [parseDigits, h c cs rfl, if_false, Bool.false_eq_true]

theorem digitChar_isDigit (d : Nat) (h : d < 10) : (digitChar d).isDigit = true := by
  interval_cases d <;> decide

theorem digitVal_digitChar (d : Nat) (h : d < 10) : digitVal (digitChar d) = d := by
  interval_cases d <;> decide

theorem natToStr_digits (n : Nat) : ∀ c ∈ natToStr n, c.isDigit = true := by
  induction n using Nat.strong_induction_on with
  | _ n ih =>
    rw [natToStr]
    split_ifs with h
    · intro c hc
      rw [List.mem_singleton] at hc
      subst hc
      exact digitChar_isDigit n h
    · intro c hc
      rw [List.mem_append] at hc
      rcases hc with hc | hc
      · exact ih (n / 10) (by omega) c hc
      · rw [List.mem_singleton] at hc
        subst hc
        exact digitChar_isDigit (n % 10) (by omega)

theorem natToStr_ne_nil (n : Nat) : natToStr n ≠ [] := by
  rw [natToStr]
  split_ifs with h
  · simp
  · simp

theorem strVal_natToStr (acc n : Nat) :
    strVal acc (natToStr n) = acc * 10 ^ (natToStr n).length + n := by
  induction n using Nat.strong_induction_on generalizing acc with
  | _ n ih =>
    rw [natToStr]
    split_ifs with h
    · simp only [strVal, List.foldl_cons, List.foldl_nil, List.length_singleton,
        pow_one, digitVal_digitChar n h]
    · have hrec := ih (n / 10) (by omega)
      simp only [strVal, List.foldl_append, List.foldl_cons, List.foldl_nil,
        List.length_append, List.length_singleton]
      rw [show (List.foldl (fun a c => a * 10 + digitVal c) acc (natToStr (n / 10))) =
        strVal acc (natToStr (n / 10)) from rfl, hrec acc,
        digitVal_digitChar (n % 10) (by omega), pow_succ]
      have hmod : n / 10 * 10 + n % 10 = n := by omega
      calc (acc * 10 ^ (natToStr (n / 10)).length + n / 10) * 10 + n % 10
          = acc * (10 ^ (natToStr (n / 10)).length * 10) + (n / 10 * 10 + n % 10) := by ring
        _ = acc * (10 ^ (natToStr (n / 10)).length * 10) + n := by rw [hmod]

theorem parseNatPrefix_natToStr (n : Nat) (r : List Char)
    (h : ∀ c cs, r = c :: cs → c.isDigit = false) :
    parseNatPrefix (natToStr n ++ r) = some (n, r) := by
  have hdig := natToStr_digits n
  have hval := strVal_natToStr 0 n
  rw [zero_mul, zero_add] at hval
  obtain ⟨c, cs, hcons⟩ : ∃ c cs, natToStr n = c :: cs := by
    cases hh : natToStr n with
    | nil => exact absurd hh (natToStr_ne_nil n)
    | cons c cs => exact ⟨c, cs, rfl⟩
  rw [hcons] at hdig hval ⊢
  have hc : c.isDigit = true := hdig c (List.mem_cons_self c cs)
  have hcs : ∀ x ∈ cs, x.isDigit = true := fun x hx => hdig x (List.mem_cons_of_mem c hx)
  simp only [List.cons_append, parseNatPrefix, hc, if_true]
  rw [parseDigits_digits_append cs (digitVal c) r hcs]
  rw [parseDigits_stop _ r h]
  have h0 : (0 : Nat) * 10 + digitVal c = digitVal c := by omega
  have hvc : strVal (digitVal c) cs = n := by
    rw [← hval]
    simp only [strVal, List.foldl_cons, h0]
  rw [hvc]

theorem multiaddrParse_serialize (m : Multiaddr) (h : m.WF) :
    multiaddrParse (multiaddrSerialize m) = some m := by
  obtain ⟨a, b, c, d, p, ws⟩ := m
  obtain ⟨h0, h1, h2, h3, hp⟩ := h
  have hdot : ∀ (X : List Char) (c2 : Char) (cs2 : List Char),
      ['.'] ++ X = c2 :: cs2 → c2.isDigit = false := by
    intro X c2 cs2 heq
    rw [List.singleton_append] at heq
    cases heq
    decide
  have hslash : ∀ (X : List Char) (c2 : Char) (cs2 : List Char),
      ['/', 't', 'c', 'p', '/'] ++ X = c2 :: cs2 → c2.isDigit = false := by
    intro X c2 cs2 heq
    rw [List.cons_append] at heq
    cases heq
    decide
  cases ws
  · unfold multiaddrSerialize multiaddrParse
    simp only [Bool.false_eq_true, if_false]
    rw [show "/ip4/".toList = ['/', 'i', 'p', '4', '/'] from rfl,
      show ".".toList = ['.'] from rfl,
      show "/tcp/".toList = ['/', 't', 'c', 'p', '/'] from rfl]
    simp only [List.append_assoc, List.append_nil]
    rw [dropLit_append]
    simp only [Option.bind_eq_bind, Option.some_bind]
    rw [parseNatPrefix_natToStr a _ (hdot _)]
    simp only [Option.some_bind]
    rw [dropLit_append]
    simp only [Option.some_bind]
    rw [parseNatPrefix_natToStr b _ (hdot _)]
    simp only [Option.some_bind]
    rw [dropLit_append]
    simp only [Option.some_bind]
    rw [parseNatPrefix_natToStr c _ (hdot _)]
    simp only [Option.some_bind]
    rw [dropLit_append]
    simp only [Option.some_bind]
    rw [parseNatPrefix_natToStr d _ (hslash _)]
    simp only [Option.some_bind]
    rw [dropLit_append]
    simp only [Option.some_bind]
    have hpp : parseNatPrefix (natToStr p) = some (p, []) := by
      have hx := parseNatPrefix_natToStr p [] (by intro c2 cs2 heq; simp at heq)
      rwa [List.append_nil] at hx
    rw [hpp]
    simp only [Option.some_bind]
    rw [if_pos ⟨h0, h1, h2, h3, hp⟩]
    simp
  · unfold multiaddrSerialize multiaddrParse
    simp only [if_true]
    rw [show "/ip4/".toList = ['/', 'i', 'p', '4', '/'] from rfl,
      show ".".toList = ['.'] from rfl,
      show "/tcp/".toList = ['/', 't', 'c', 'p', '/'] from rfl,
      show "/ws".toList = ['/', 'w', 's'] from rfl]
    simp only [List.append_assoc]
    rw [dropLit_append]
    simp only [Option.bind_eq_bind, Option.some_bind]
    rw [parseNatPrefix_natToStr a _ (hdot _)]
    simp only [Option.some_bind]
    rw [dropLit_append]
    simp only [Option.some_bind]
    rw [parseNatPrefix_natToStr b _ (hdot _)]
    simp only [Option.some_bind]
    rw [dropLit_append]
    simp only [Option.some_bind]
    rw [parseNatPrefix_natToStr c _ (hdot _)]
    simp only [Option.some_bind]
    rw [dropLit_append]
    simp only [Option.some_bind]
    rw [parseNatPrefix_natToStr d _ (hslash _)]
    simp only [Option.some_bind]
    rw [dropLit_append]
    simp only [Option.some_bind]
    rw [parseNatPrefix_natToStr p ['/', 'w', 's']
      (by intro c2 cs2 heq; cases heq; decide)]
    simp only [Option.some_bind]
    rw [if_pos ⟨h0, h1, h2, h3, hp⟩, if_neg (by decide), if_pos (by decide)]

theorem multiaddrParse_wf (s : List Char) (m : Multiaddr)
    (h : multiaddrParse s = some m) : m.WF := by
  unfold multiaddrParse at h
  simp only [Option.bind_eq_bind, Option.bind_eq_some] at h
  obtain ⟨s1, -, ⟨na, ra⟩, -, s2, -, ⟨nb, rb⟩, -, s3, -, ⟨nc, rc⟩, -, s4, -,
    ⟨nd, rd⟩, -, s5, -, ⟨np, rp⟩, -, hfin⟩ := h
  split_ifs at hfin with hcond hnil hws
  · cases hfin
    exact ⟨hcond.1, hcond.2.1, hcond.2.2.1, hcond.2.2.2.1, hcond.2.2.2.2⟩
  · cases hfin
    exact ⟨hcond.1, hcond.2.1, hcond.2.2.1, hcond.2.2.2.1, hcond.2.2.2.2⟩

/-- The dial address literal of main.rs lines 123-125 parses. -/
theorem parse_dialAddr : multiaddrParse "/ip4/127.0.0.1/tcp/4242/ws".toList =
    some ⟨127, 0, 0, 1, 4242, true⟩ := by decide

/-- The listen address literal of main.rs lines 96-98 parses. -/
theorem parse_listenAddr : multiaddrParse "/ip4/0.0.0.0/tcp/4242/ws".toList =
    some ⟨0, 0, 0, 0, 4242, true⟩ := by decide

/-! ## Startup sequence (main.rs lines 95-142)

`main` performs, in order: listen on the pre-configured local address
(only when not compiled for emscripten, main.rs lines 95-103), build the
topic and subscribe (lines 105-110), dial the pre-configured bootstrap
address (lines 123-126), and hand the composed future to the platform's
event loop (lines 138-142).  Each pre-configured address is parsed with
`.parse().expect(...)`, so a parse failure aborts startup: the action
list is `none` in that case. -/

/-- One externally visible startup action of `main`. -/
inductive MainAction
  | listenOn (a : Multiaddr)
  | subscribe (t : Topic)
  | dial (a : Multiaddr)
  | runLoop
  deriving Repr, DecidableEq

/-- Whether an action is a dial. -/
def MainAction.isDial : MainAction → Bool
  | .dial _ => true
  | _ => false

/-- Whether an action is a subscribe. -/
def MainAction.isSubscribe : MainAction → Bool
  | .subscribe _ => true
  | _ => false

/-- Whether an action starts the merged event loop. -/
def MainAction.isRun : MainAction → Bool
  | .runLoop => true
  | _ => false

/-- The ordered startup actions of `main` as a function of the
deployment environment (`emscripten = true` means the browser build,
where `cfg!(not(target_os = "emscripten"))` is false and the listen
block is skipped).  `none` models a startup panic on address parse
failure (`.expect("failed to parse multiaddress")`). -/
def mainActions (emscripten : Bool) : Option (List MainAction) := do
  let pre ←
    if emscripten then pure []
    else do
      let la ← multiaddrParse "/ip4/0.0.0.0/tcp/4242/ws".toList
      pure [MainAction.listenOn la]
  let da ← multiaddrParse "/ip4/127.0.0.1/tcp/4242/ws".toList
  pure (pre ++ [MainAction.subscribe theTopic, MainAction.dial da, MainAction.runLoop])

/-! ## Swarm connection state machine (modelled from the spec)

Modelled from the spec: the Swarm (spec §4.3) is library code not present
in the sources.  Its per-connection state machine is
`Dialing → Upgrading → Open → Closed(reason)`; a failure event affects
only the connection it concerns, and never makes the Swarm-wide driving
task fail. -/

/-- Why a connection closed. -/
inductive CloseReason
  | dialFailed
  | upgradeFailed
  | protocolViolation
  | ioError
  | remoteClosed
  | localClosed
  deriving Repr, DecidableEq

/-- Per-connection state of the Swarm's state machine. -/
inductive ConnState
  | dialing
  | upgrading
  | opened
  | closed (r : CloseReason)
  deriving Repr, DecidableEq

/-- A connection-lifecycle event observed by the Swarm. -/
inductive SwarmEvent
  | dialOk (c : Nat)
  | dialFail (c : Nat)
  | upgradeOk (c : Nat)
  | upgradeFail (c : Nat)
  | connClosed (c : Nat) (r : CloseReason)
  deriving Repr, DecidableEq

/-- Modelled from the spec: one step of the Swarm's driving task on a
connection event.  The result is `Except`: an `error` would mean the
driving task itself fails; every connection-level event, including every
failure, is absorbed as a state transition of that one connection. -/
def swarmStep (s : Nat → ConnState) : SwarmEvent → Except String (Nat → ConnState)
  | .dialOk c =>
    .ok (if s c = .dialing then Function.update s c .upgrading else s)
  | .dialFail c =>
    .ok (if s c = .dialing then Function.update s c (.closed .dialFailed) else s)
  | .upgradeOk c =>
    .ok (if s c = .upgrading then Function.update s c .opened else s)
  | .upgradeFail c =>
    .ok (if s c = .upgrading then Function.update s c (.closed .upgradeFailed) else s)
  | .connClosed c r =>
    .ok (if s c = .opened then Function.update s c (.closed r) else s)

/-! ## Flood propagation over a connection graph (modelled from the spec)

Modelled from the spec: the network-wide behaviour of the flooding
algorithm (spec §8, *Flood termination*) over a finite connection graph.
Nodes are naturals, connections an undirected edge list.  A transmission
`(f, t)` is the frame in flight from node `f` to node `t`.  Processing a
transmission whose receiver has already seen the message discards it;
otherwise the receiver records it (dedup cache) and re-broadcasts to all
its neighbours except the sender — one re-broadcast event, recorded in
`used` as the first-receipt transmission that triggered it. -/

/-- Neighbours of `v` in an undirected edge list. -/
def neighbors (edges : List (Nat × Nat)) (v : Nat) : List Nat :=
  edges.filterMap fun e =>
    if e.1 = v then some e.2 else if e.2 = v then some e.1 else none

/-- Network-wide flooding state for one published message: the nodes
that have seen it, the in-flight transmissions, and the first-receipt
transmissions (one per re-broadcast event so far). -/
structure FloodState where
  seen : List Nat
  queue : List (Nat × Nat)
  used : List (Nat × Nat)
  deriving Repr, DecidableEq

/-- `publish` at the origin: the origin has seen its own message (the
spec adds it to the dedup cache preemptively) and a frame is in flight
to each of its neighbours. -/
def floodPublish (edges : List (Nat × Nat)) (o : Nat) : FloodState :=
  { seen := [o],
    queue := (neighbors edges o).map (fun v => (o, v)),
    used := [] }

/-- Process one in-flight transmission: discard if the receiver has seen
the message, otherwise mark it seen and re-broadcast to every neighbour
except the sender. -/
def floodStep (edges : List (Nat × Nat)) (s : FloodState) : FloodState :=
  match s.queue with
  | [] => s
  | (f, t) :: rest =>
    if t ∈ s.seen then { s with queue := rest }
    else
      { seen := t :: s.seen,
        queue := rest ++ ((neighbors edges t).filter (fun v => v ≠ f)).map
          (fun v => (t, v)),
        used := (f, t) :: s.used }

/-- Run the flood for a number of steps. -/
def floodRun (edges : List (Nat × Nat)) : Nat → FloodState → FloodState
  | 0, s => s
  | fuel + 1, s => floodRun edges fuel (floodStep edges s)

/-- The two endpoints `f` and `t` are connected in the edge list. -/
def IsEdge (edges : List (Nat × Nat)) (f t : Nat) : Prop :=
  (f, t) ∈ edges ∨ (t, f) ∈ edges

/-- Canonical (sorted) representative of an undirected edge. -/
def undirect (e : Nat × Nat) : Nat × Nat :=
  if e.1 ≤ e.2 then e else (e.2, e.1)

/-- The invariant maintained by flooding: senders of in-flight frames
have seen the message; every transmission travels along a graph edge;
first receipts involve only seen endpoints, travel along graph edges,
and use pairwise distinct undirected edges. -/
structure FloodInv (edges : List (Nat × Nat)) (s : FloodState) : Prop where
  queue_seen : ∀ p ∈ s.queue, p.1 ∈ s.seen
  queue_edge : ∀ p ∈ s.queue, IsEdge edges p.1 p.2
  used_seen : ∀ p ∈ s.used, p.1 ∈ s.seen ∧ p.2 ∈ s.seen
  used_edge : ∀ p ∈ s.used, IsEdge edges p.1 p.2
  used_nodup : (s.used.map undirect).Nodup

/-- All endpoints mentioned by the edge list. -/
def nodeFinset (edges : List (Nat × Nat)) : Finset Nat :=
  (edges.map Prod.fst ++ edges.map Prod.snd).toFinset

/-- Nodes of the graph that have not yet seen the message. -/
def unseenCount (edges : List (Nat × Nat)) (s : FloodState) : Nat :=
  (nodeFinset edges \ s.seen.toFinset).card

/-- Termination potential of a flooding state: strictly decreases at
every step processing a nonempty queue. -/
def floodPot (edges : List (Nat × Nat)) (s : FloodState) : Nat :=
  (edges.length + 1) * unseenCount edges s + s.queue.length

theorem mem_neighbors {edges : List (Nat × Nat)} {u v : Nat}
    (h : v ∈ neighbors edges u) : IsEdge edges u v := by
  unfold neighbors at h
  rw [List.mem_filterMap] at h
  obtain ⟨e, he, hev⟩ := h
  split_ifs at hev with h1 h2
  · cases hev
    left
    obtain ⟨e1, e2⟩ := e
    cases h1
    exact he
  · cases hev
    right
    obtain ⟨e1, e2⟩ := e
    cases h2
    exact he

theorem undirect_swap (f t : Nat) : undirect (f, t) = undirect (t, f) := by
  unfold undirect
  split_ifs with h1 h2 h2 <;> simp_all <;> omega

theorem undirect_eq_cases {e e' : Nat × Nat} (h : undirect e = undirect e') :
    (e.1 = e'.1 ∧ e.2 = e'.2) ∨ (e.1 = e'.2 ∧ e.2 = e'.1) := by
  obtain ⟨a, b⟩ := e
  obtain ⟨c, d⟩ := e'
  unfold undirect at h
  split_ifs at h <;> simp_all [Prod.ext_iff]

theorem isEdge_undirect_mem {edges : List (Nat × Nat)} {f t : Nat}
    (h : IsEdge edges f t) : undirect (f, t) ∈ edges.map undirect := by
  rcases h with h | h
  · exact List.mem_map_of_mem undirect h
  · rw [undirect_swap]
    exact List.mem_map_of_mem undirect h

theorem floodInv_publish (edges : List (Nat × Nat)) (o : Nat) :
    FloodInv edges (floodPublish edges o) := by
  constructor
  · intro p hp
    rw [floodPublish, List.mem_map] at hp
    obtain ⟨v, -, rfl⟩ := hp
    exact List.mem_singleton.mpr rfl
  · intro p hp
    rw [floodPublish, List.mem_map] at hp
    obtain ⟨v, hv, rfl⟩ := hp
    exact mem_neighbors hv
  · intro p hp
    exact absurd hp (List.not_mem_nil p)
  · intro p hp
    exact absurd hp (List.not_mem_nil p)
  · exact List.nodup_nil

theorem floodInv_step (edges : List (Nat × Nat)) (s : FloodState)
    (h : FloodInv edges s) : FloodInv edges (floodStep edges s) := by
  obtain ⟨hqs, hqe, hus, hue, hnd⟩ := h
  rcases hq : s.queue with - | ⟨⟨f, t⟩, rest⟩
  · simp only [floodStep, hq]
    exact ⟨hqs, hqe, hus, hue, hnd⟩
  · rw [hq] at hqs hqe
    have hfseen : f ∈ s.seen := hqs (f, t) (List.mem_cons_self _ _)
    have hft : IsEdge edges f t := hqe (f, t) (List.mem_cons_self _ _)
    simp only [floodStep, hq]
    split_ifs with hseen
    · exact ⟨fun p hp => hqs p (List.mem_cons_of_mem _ hp),
        fun p hp => hqe p (List.mem_cons_of_mem _ hp), hus, hue, hnd⟩
    · constructor
      · intro p hp
        rw [List.mem_append] at hp
        rcases hp with hp | hp
        · exact List.mem_cons_of_mem t (hqs p (List.mem_cons_of_mem _ hp))
        · rw [List.mem_map] at hp
          obtain ⟨v, -, rfl⟩ := hp
          exact List.mem_cons_self _ _
      · intro p hp
        rw [List.mem_append] at hp
        rcases hp with hp | hp
        · exact hqe p (List.mem_cons_of_mem _ hp)
        · rw [List.mem_map] at hp
          obtain ⟨v, hv, rfl⟩ := hp
          exact mem_neighbors (List.mem_of_mem_filter hv)
      · intro p hp
        rw [List.mem_cons] at hp
        rcases hp with rfl | hp
        · exact ⟨List.mem_cons_of_mem t hfseen, List.mem_cons_self _ _⟩
        · obtain ⟨h1, h2⟩ := hus p hp
          exact ⟨List.mem_cons_of_mem t h1, List.mem_cons_of_mem t h2⟩
      · intro p hp
        rw [List.mem_cons] at hp
        rcases hp with rfl | hp
        · exact hft
        · exact hue p hp
      · rw [List.map_cons, List.nodup_cons]
        refine ⟨?_, hnd⟩
        intro hmem
        rw [List.mem_map] at hmem
        obtain ⟨p, hp, hpeq⟩ := hmem
        obtain ⟨hp1, hp2⟩ := hus p hp
        rcases undirect_eq_cases hpeq with ⟨he1, he2⟩ | ⟨he1, he2⟩
        · have hpt : p.2 = t := he2
          exact hseen (hpt ▸ hp2)
        · have hpt : p.1 = t := he1
          exact hseen (hpt ▸ hp1)

theorem floodInv_used_le (edges : List (Nat × Nat)) (s : FloodState)
    (h : FloodInv edges s) : s.used.length ≤ edges.length := by
  have hsub : s.used.map undirect ⊆ edges.map undirect := by
    intro x hx
    rw [List.mem_map] at hx
    obtain ⟨p, hp, rfl⟩ := hx
    have := h.used_edge p hp
    exact isEdge_undirect_mem this
  calc s.used.length = (s.used.map undirect).length := (List.length_map _ _).symm
    _ = (s.used.map undirect).toFinset.card := (List.toFinset_card_of_nodup h.used_nodup).symm
    _ ≤ (edges.map undirect).toFinset.card := by
        apply Finset.card_le_card
        intro x hx
        rw [List.mem_toFinset] at hx
        rw [List.mem_toFinset]
        exact hsub hx
    _ ≤ (edges.map undirect).length := List.toFinset_card_le _
    _ = edges.length := List.length_map _ _

theorem floodInv_run (edges : List (Nat × Nat)) (fuel : Nat) (s : FloodState)
    (h : FloodInv edges s) : FloodInv edges (floodRun edges fuel s) := by
  induction fuel generalizing s with
  | zero => exact h
  | succ n ih => exact ih (floodStep edges s) (floodInv_step edges s h)

theorem edge_mem_nodeFinset {edges : List (Nat × Nat)} {f t : Nat}
    (h : IsEdge edges f t) : t ∈ nodeFinset edges := by
  unfold nodeFinset
  rw [List.mem_toFinset, List.mem_append]
  rcases h with h | h
  · right
    rw [List.mem_map]
    exact ⟨(f, t), h, rfl⟩
  · left
    rw [List.mem_map]
    exact ⟨(t, f), h, rfl⟩

theorem neighbors_length_le (edges : List (Nat × Nat)) (v : Nat) :
    (neighbors edges v).length ≤ edges.length :=
  List.length_filterMap_le _ _

theorem floodStep_empty (edges : List (Nat × Nat)) (s : FloodState)
    (hq : s.queue = []) : floodStep edges s = s := by
  simp only [floodStep, hq]

theorem floodRun_empty_stable (edges : List (Nat × Nat)) (n : Nat) (s : FloodState)
    (hq : s.queue = []) : floodRun edges n s = s := by
  induction n with
  | zero => rfl
  | succ n ih => rw [floodRun, floodStep_empty edges s hq]; exact ih

theorem floodPot_step_lt (edges : List (Nat × Nat)) (s : FloodState)
    (hq : s.queue ≠ []) (h : FloodInv edges s) :
    floodPot edges (floodStep edges s) < floodPot edges s := by
  rcases hqe : s.queue with - | ⟨⟨f, t⟩, rest⟩
  · exact absurd hqe hq
  · simp only [floodStep, hqe]
    split_ifs with hseen
    · unfold floodPot unseenCount
      rw [hqe]
      simp only [List.length_cons]
      omega
    · have htN : t ∈ nodeFinset edges :=
        edge_mem_nodeFinset (h.queue_edge (f, t) (by rw [hqe]; exact List.mem_cons_self _ _))
      have htseen : t ∉ s.seen.toFinset := by
        rw [List.mem_toFinset]; exact hseen
      have hcard : (nodeFinset edges \ (t :: s.seen).toFinset).card + 1 =
          (nodeFinset edges \ s.seen.toFinset).card := by
        rw [List.toFinset_cons, Finset.sdiff_insert,
          Finset.card_erase_of_mem (Finset.mem_sdiff.mpr ⟨htN, htseen⟩)]
        have hpos : 0 < (nodeFinset edges \ s.seen.toFinset).card :=
          Finset.card_pos.mpr ⟨t, Finset.mem_sdiff.mpr ⟨htN, htseen⟩⟩
        omega
      have hqlen : (rest ++ ((neighbors edges t).filter (fun v => v ≠ f)).map
          (fun v => (t, v))).length ≤ rest.length + edges.length := by
        rw [List.length_append, List.length_map]
        have h1 := List.length_filter_le (fun v => v ≠ f) (neighbors edges t)
        have h2 := neighbors_length_le edges t
        omega
      unfold floodPot unseenCount
      rw [hqe]
      simp only [List.length_cons]
      rw [← hcard]
      have hmul : (edges.length + 1) *
          ((nodeFinset edges \ (t :: s.seen).toFinset).card + 1) =
          (edges.length + 1) * (nodeFinset edges \ (t :: s.seen).toFinset).card +
            (edges.length + 1) := by ring
      rw [hmul]
      generalize (edges.length + 1) * (nodeFinset edges \ (t :: s.seen).toFinset).card = P
      omega

theorem floodRun_pot_empty (edges : List (Nat × Nat)) :
    ∀ (n : Nat) (s : FloodState), FloodInv edges s → floodPot edges s ≤ n →
      (floodRun edges n s).queue = [] := by
  intro n
  induction n with
  | zero =>
    intro s h hpot
    have hle : s.queue.length ≤ floodPot edges s := Nat.le_add_left _ _
    have : s.queue.length = 0 := by omega
    rw [floodRun]
    exact List.length_eq_zero.mp this
  | succ n ih =>
    intro s h hpot
    rcases hq : s.queue with - | _
    · rw [floodRun, floodStep_empty edges s hq, floodRun_empty_stable edges n s hq]
      exact hq
    · have hlt := floodPot_step_lt edges s (by rw [hq]; simp) h
      rw [floodRun]
      exact ih (floodStep edges s) (floodInv_step edges s h) (by omega)

/-! ## Engine lemmas -/

theorem handleFrame_seen (e : Engine) (fr : Frame) (h : fr.ident ∈ e.seen) :
    handleFrame e fr = (e, [], []) := by
  simp [handleFrame, h]

theorem handleFrame_subs (e : Engine) (fr : Frame) :
    (handleFrame e fr).1.subs = e.subs := by
  unfold handleFrame
  split_ifs <;> rfl

theorem handleFrame_seen_mono (e : Engine) (fr : Frame) :
    e.seen ⊆ (handleFrame e fr).1.seen := by
  unfold handleFrame
  split_ifs <;> intro x hx <;> first | exact hx | exact List.mem_cons_of_mem _ hx

theorem processFrames_seen_mono (e : Engine) (frames : List Frame) :
    e.seen ⊆ (processFrames e frames).1.seen := by
  induction frames generalizing e with
  | nil => exact fun x hx => hx
  | cons fr rest ih =>
    intro x hx
    simp only [processFrames]
    exact ih (handleFrame e fr).1 (handleFrame_seen_mono e fr hx)

theorem processFrames_ident_seen (e : Engine) (I : Nat) (frames : List Frame)
    (hseen : I ∈ e.seen) (hall : ∀ fr ∈ frames, fr.ident = I) :
    processFrames e frames = (e, [], []) := by
  induction frames with
  | nil => rfl
  | cons fr rest ih =>
    have hfr : fr.ident = I := hall fr (List.mem_cons_self _ _)
    have hrest : ∀ g ∈ rest, g.ident = I := fun g hg => hall g (List.mem_cons_of_mem _ hg)
    simp only [processFrames, handleFrame_seen e fr (hfr ▸ hseen), ih hrest]
    rfl

theorem handleFrame_unseen (e : Engine) (fr : Frame) (h : fr.ident ∉ e.seen) :
    handleFrame e fr = ({ e with seen := fr.ident :: e.seen },
      (if fr.topic ∈ e.subs then [⟨fr.topic, fr.data⟩] else []),
      (e.conns.filter fun c => c.1 ≠ fr.conn ∧ fr.topic ∈ c.2).map fun c => (c.1, fr)) := by
  simp [handleFrame, h]

theorem processFrames_cons (e : Engine) (fr : Frame) (rest : List Frame) :
    processFrames e (fr :: rest) =
      ((processFrames (handleFrame e fr).1 rest).1,
       (handleFrame e fr).2.1 ++ (processFrames (handleFrame e fr).1 rest).2.1,
       (handleFrame e fr).2.2 ++ (processFrames (handleFrame e fr).1 rest).2.2) := by
  simp only [processFrames]

theorem handleFrame_delivered_topic (e : Engine) (fr : Frame) (m : Message)
    (h : m ∈ (handleFrame e fr).2.1) : m.topic ∈ e.subs := by
  unfold handleFrame at h
  split_ifs at h with h1 h2
  · exact absurd h (List.not_mem_nil m)
  · rw [List.mem_singleton] at h
    subst h
    exact h2
  · exact absurd h (List.not_mem_nil m)

theorem processFrames_gating (e : Engine) (T : String) (frames : List Frame)
    (h : T ∉ e.subs) : ∀ m ∈ (processFrames e frames).2.1, m.topic ≠ T := by
  induction frames generalizing e with
  | nil => intro m hm; exact absurd hm (List.not_mem_nil m)
  | cons fr rest ih =>
    intro m hm
    rw [processFrames_cons] at hm
    simp only [List.mem_append] at hm
    rcases hm with hm | hm
    · intro heq
      exact h (heq ▸ handleFrame_delivered_topic e fr m hm)
    · have hsubs : T ∉ (handleFrame e fr).1.subs := by
        rw [handleFrame_subs]; exact h
      exact ih (handleFrame e fr).1 hsubs m hm

/-- Replace each frame's payload (keeping connection, topic and
identity): used to state that the engine's dedup/flood behaviour does
not depend on payload bytes. -/
def withData (g : Frame → List Nat) (fr : Frame) : Frame :=
  { fr with data := g fr }

theorem handleFrame_data_indep (e : Engine) (g : Frame → List Nat) (fr : Frame) :
    (handleFrame e (withData g fr)).1 = (handleFrame e fr).1 ∧
    (handleFrame e (withData g fr)).2.1.length = (handleFrame e fr).2.1.length ∧
    (handleFrame e (withData g fr)).2.2.length = (handleFrame e fr).2.2.length := by
  unfold handleFrame withData
  split_ifs <;> simp_all

theorem processFrames_data_indep (e : Engine) (g : Frame → List Nat)
    (frames : List Frame) :
    (processFrames e (frames.map (withData g))).1 = (processFrames e frames).1 ∧
    (processFrames e (frames.map (withData g))).2.1.length =
      (processFrames e frames).2.1.length ∧
    (processFrames e (frames.map (withData g))).2.2.length =
      (processFrames e frames).2.2.length := by
  induction frames generalizing e with
  | nil => exact ⟨rfl, rfl, rfl⟩
  | cons fr rest ih =>
    obtain ⟨hs, hd, hb⟩ := handleFrame_data_indep e g fr
    obtain ⟨hs2, hd2, hb2⟩ := ih (handleFrame e fr).1
    rw [List.map_cons, processFrames_cons, processFrames_cons]
    refine ⟨?_, ?_, ?_⟩
    · simp only [hs, hs2]
    · simp only [List.length_append, hs, hd, hd2]
    · simp only [List.length_append, hs, hb, hb2]

/-! ## Handler lemmas -/

theorem runFloodsubRx_eq (msgs : List Message) :
    runFloodsubRx msgs = (msgs.map displayLine, Except.ok ()) := by
  induction msgs with
  | nil => rfl
  | cons m rest ih =>
    show forEachAcc rxClosure (m :: rest) = _
    simp only [forEachAcc, rxClosure]
    rw [show forEachAcc rxClosure rest = runFloodsubRx rest from rfl, ih]
    rfl

theorem runStdin_eq (lines : List (List Nat)) :
    runStdin lines =
      (lines.map (fun l => ⟨theTopic, utf8Encode l⟩), Except.ok ()) := by
  induction lines with
  | nil => rfl
  | cons l rest ih =>
    show forEachAcc stdinClosure (l :: rest) = _
    simp only [forEachAcc, stdinClosure]
    rw [show forEachAcc stdinClosure rest = runStdin rest from rfl, ih]
    rfl

theorem displayLine_notice_iff (m : Message) :
    displayLine m = OutLine.notice ↔ utf8Decode m.data = none := by
  unfold displayLine
  cases h : utf8Decode m.data <;> simp

theorem displayLine_text_iff (m : Message) (s : List Nat) :
    displayLine m = OutLine.text s ↔ utf8Decode m.data = some s := by
  unfold displayLine
  cases h : utf8Decode m.data <;> simp

/-! ## Futures composition lemmas -/

theorem selectThen_err_left (a b : SFut) (t : Nat) (h : a = some (t, false)) :
    ∃ tr, tr ≤ t ∧ selectThen a b = some (tr, false) := by
  subst h
  match b with
  | none => exact ⟨t, le_refl t, rfl⟩
  | some (tb, okb) =>
    rcases le_or_lt t tb with hle | hlt
    · exact ⟨t, le_refl t, by simp [selectThen, hle]⟩
    · cases okb
      · exact ⟨tb, by omega, by simp [selectThen, Nat.not_le.mpr hlt]⟩
      · exact ⟨t, le_refl t, by simp [selectThen, Nat.not_le.mpr hlt]⟩

theorem selectThen_err_right (a b : SFut) (t : Nat) (h : b = some (t, false)) :
    ∃ tr, tr ≤ t ∧ selectThen a b = some (tr, false) := by
  subst h
  match a with
  | none => exact ⟨t, le_refl t, rfl⟩
  | some (ta, oka) =>
    rcases le_or_lt ta t with hle | hlt
    · cases oka
      · exact ⟨ta, hle, by simp [selectThen, hle]⟩
      · exact ⟨t, le_refl t, by simp [selectThen, hle]⟩
    · exact ⟨t, le_refl t, by simp [selectThen, Nat.not_le.mpr hlt]⟩

theorem selectThen_ok (a b : SFut) (t : Nat) (h : selectThen a b = some (t, true)) :
    (∃ ta, a = some (ta, true)) ∧ ∃ tb, b = some (tb, true) := by
  match a, b with
  | none, none => simp [selectThen] at h
  | some (ta, oka), none =>
    cases oka <;> simp_all [selectThen]
  | none, some (tb, okb) =>
    cases okb <;> simp_all [selectThen]
  | some (ta, oka), some (tb, okb) =>
    rcases le_or_lt ta tb with hle | hlt
    · cases oka <;> cases okb <;> simp_all [selectThen, hle]
    · cases oka <;> cases okb <;> simp_all [selectThen, Nat.not_le.mpr hlt]

/-! # Claims -/

/-- C1 (counterexample): the claim that the composed loop of main.rs
lines 139-142 ends as soon as ANY of the three sources terminates or
errors — "whether that source ends by failure or by successful
completion" — is false: with the Swarm future completing successfully at
time 0 and the other two sources never resolving, the composed future
never resolves, because `.and_then(|(_, n)| n)` continues with the
remaining future after a success. -/
theorem claim_C1_counterexample :
    ¬(∀ s f i : SFut, ∀ (t : Nat) (r : Bool),
        (s = some (t, r) ∨ f = some (t, r) ∨ i = some (t, r)) →
        ∃ tr r', tr ≤ t ∧ finalFuture s f i = some (tr, r')) := by
  intro hcl
  obtain ⟨tr, r', -, habs⟩ := hcl (some (0, true)) none none 0 true (Or.inl rfl)
  simp [finalFuture, selectThen] at habs

/-- C1 (amended): the composed loop of main.rs lines 139-142 is
fail-fast for errors only: if any of the three sources errors at time
`t`, the whole composed future errors at some time `tr ≤ t`; a source's
successful completion does not end the loop — the composed future
completes successfully only when all three sources complete
successfully. -/
theorem claim_C1 (s f i : SFut) :
    (∀ t : Nat, (s = some (t, false) ∨ f = some (t, false) ∨ i = some (t, false)) →
      ∃ tr, tr ≤ t ∧ finalFuture s f i = some (tr, false)) ∧
    (∀ t : Nat, finalFuture s f i = some (t, true) →
      (∃ ts, s = some (ts, true)) ∧ (∃ tf, f = some (tf, true)) ∧
        ∃ ti, i = some (ti, true)) := by
  constructor
  · intro t ht
    rcases ht with h | h | h
    · obtain ⟨tr, htr, hst⟩ := selectThen_err_left s f t h
      obtain ⟨tr2, htr2, hfin⟩ := selectThen_err_left (selectThen s f) i tr hst
      exact ⟨tr2, le_trans htr2 htr, hfin⟩
    · obtain ⟨tr, htr, hst⟩ := selectThen_err_right s f t h
      obtain ⟨tr2, htr2, hfin⟩ := selectThen_err_left (selectThen s f) i tr hst
      exact ⟨tr2, le_trans htr2 htr, hfin⟩
    · exact selectThen_err_right (selectThen s f) i t h
  · intro t ht
    obtain ⟨⟨t1, h1⟩, ⟨ti, hi⟩⟩ := selectThen_ok (selectThen s f) i t ht
    obtain ⟨⟨ts, hs⟩, ⟨tf, hf⟩⟩ := selectThen_ok s f t1 h1
    exact ⟨⟨ts, hs⟩, ⟨tf, hf⟩, ⟨ti, hi⟩⟩

/-- C1 witness: the fail-fast direction applied at a concrete input —
the floodsub stream erroring at time 3 ends the composed loop by time 3
even though the stdin source would succeed later. -/
theorem claim_C1_witness :
    ∃ tr, tr ≤ 3 ∧
      finalFuture (some (3, false)) (some (7, true)) none = some (tr, false) :=
  (claim_C1 (some (3, false)) (some (7, true)) none).1 3 (Or.inl rfl)

/-- C2: for any engine state not yet knowing identity `I` but subscribed
to topic `T`, any nonempty sequence of frames all carrying `(T, I)` —
from any connections, in any order — delivers exactly one message
locally; and once `I` is in the dedup cache, further frames carrying `I`
are neither delivered nor re-broadcast (and leave the engine
unchanged). -/
theorem claim_C2 (e : Engine) (T : String) (I : Nat) (frames : List Frame)
    (hI : I ∉ e.seen) (hT : T ∈ e.subs) (hne : frames ≠ [])
    (hall : ∀ fr ∈ frames, fr.topic = T ∧ fr.ident = I) :
    (processFrames e frames).2.1.length = 1 ∧
    ∀ more : List Frame, (∀ fr ∈ more, fr.ident = I) →
      processFrames (processFrames e frames).1 more =
        ((processFrames e frames).1, [], []) := by
  match frames, hne with
  | fr :: rest, _ =>
    have hfrT : fr.topic = T := (hall fr (List.mem_cons_self _ _)).1
    have hfrI : fr.ident = I := (hall fr (List.mem_cons_self _ _)).2
    have hrest : ∀ g ∈ rest, g.ident = I := fun g hg => (hall g (List.mem_cons_of_mem _ hg)).2
    have hun : fr.ident ∉ e.seen := by rw [hfrI]; exact hI
    have hIe1 : I ∈ (handleFrame e fr).1.seen := by
      rw [handleFrame_unseen e fr hun]
      exact hfrI ▸ List.mem_cons_self _ _
    have hprest : processFrames (handleFrame e fr).1 rest =
        ((handleFrame e fr).1, [], []) :=
      processFrames_ident_seen (handleFrame e fr).1 I rest hIe1 hrest
    have hIfinal : I ∈ (processFrames e (fr :: rest)).1.seen := by
      rw [processFrames_cons]
      exact processFrames_seen_mono (handleFrame e fr).1 rest hIe1
    constructor
    · rw [processFrames_cons, hprest, handleFrame_unseen e fr hun]
      simp only [List.append_nil]
      rw [hfrT, if_pos hT]
      rfl
    · intro more hmore
      exact processFrames_ident_seen _ I more hIfinal hmore

/-- C2 witness: two deliveries of the same `("t", 5)` frame over two
different connections yield exactly one local message. -/
theorem claim_C2_witness :
    (processFrames ⟨[], ["t"], []⟩
      [⟨0, "t", 5, [1]⟩, ⟨1, "t", 5, [2]⟩]).2.1.length = 1 :=
  (claim_C2 ⟨[], ["t"], []⟩ "t" 5 [⟨0, "t", 5, [1]⟩, ⟨1, "t", 5, [2]⟩]
    (by decide) (by decide) (by decide) (by decide)).1

/-- C3: the receive loop of main.rs lines 112-121 never fails (the
closure always returns `Ok(())`, so a malformed payload cannot terminate
the process); it writes exactly one line per delivered message, in
order; that line is the fixed notice exactly when the payload is not
valid UTF-8 and the decoded text exactly when it is; and the engine's
dedup/flood behaviour (state, delivery count, re-broadcast count) is
independent of payload bytes, so malformed payloads do not affect it. -/
theorem claim_C3 (msgs : List Message) (g : Frame → List Nat) (e : Engine)
    (frames : List Frame) :
    (runFloodsubRx msgs).2 = Except.ok () ∧
    (runFloodsubRx msgs).1 = msgs.map displayLine ∧
    (∀ m : Message, (displayLine m = OutLine.notice ↔ utf8Decode m.data = none) ∧
      ∀ s : List Nat, displayLine m = OutLine.text s ↔ utf8Decode m.data = some s) ∧
    ((processFrames e (frames.map (withData g))).1 = (processFrames e frames).1 ∧
      (processFrames e (frames.map (withData g))).2.1.length =
        (processFrames e frames).2.1.length ∧
      (processFrames e (frames.map (withData g))).2.2.length =
        (processFrames e frames).2.2.length) := by
  refine ⟨?_, ?_, ?_, processFrames_data_indep e g frames⟩
  · rw [runFloodsubRx_eq]
  · rw [runFloodsubRx_eq]
  · exact fun m => ⟨displayLine_notice_iff m, fun s => displayLine_text_iff m s⟩

/-- C3 witness: a malformed payload followed by a valid one produce
exactly the notice line then the text line, and the loop result is
`Ok(())`. -/
theorem claim_C3_witness :
    (runFloodsubRx [⟨"t", [0xff]⟩, ⟨"t", [104]⟩]).1 =
        [OutLine.notice, OutLine.text [104]] ∧
      (runFloodsubRx [⟨"t", [0xff]⟩, ⟨"t", [104]⟩]).2 = Except.ok () := by
  have h := claim_C3 [⟨"t", [0xff]⟩, ⟨"t", [104]⟩] (fun _ => []) ⟨[], [], []⟩ []
  refine ⟨?_, h.1⟩
  rw [h.2.1]
  decide

/-- C4: a `DialFailed` event for connection `c` is absorbed by the Swarm
step — the driving task returns `ok` (never an error, so it cannot by
itself end the process), connection `c` transitions to
`Closed(DialFailed)`, and every other connection's state is unchanged. -/
theorem claim_C4 (s : Nat → ConnState) (c : Nat) (h : s c = ConnState.dialing) :
    ∃ s', swarmStep s (SwarmEvent.dialFail c) = Except.ok s' ∧
      s' c = ConnState.closed CloseReason.dialFailed ∧
      ∀ c', c' ≠ c → s' c' = s c' := by
  refine ⟨_, rfl, ?_, ?_⟩
  · show (if s c = ConnState.dialing
        then Function.update s c (ConnState.closed CloseReason.dialFailed) else s) c = _
    rw [if_pos h, Function.update_same]
  · intro c' hc
    show (if s c = ConnState.dialing
        then Function.update s c (ConnState.closed CloseReason.dialFailed) else s) c' = s c'
    rw [if_pos h, Function.update_noteq hc]

/-- C4 witness: with every connection dialing, a dial failure on
connection 0 closes exactly connection 0. -/
theorem claim_C4_witness :
    ∃ s', swarmStep (fun _ => ConnState.dialing) (SwarmEvent.dialFail 0) =
        Except.ok s' ∧
      s' 0 = ConnState.closed CloseReason.dialFailed ∧
      ∀ c', c' ≠ 0 → s' c' = ConnState.dialing :=
  claim_C4 (fun _ => ConnState.dialing) 0 rfl

/-- C5: if the local node is not subscribed to topic `T`, no message for
`T` is ever delivered on its local receive stream by any sequence of
inbound frames; yet such frames can still be relayed: there is an engine
state not subscribed to `T` whose handling of a `T`-frame produces a
nonempty re-broadcast list. -/
theorem claim_C5 (e : Engine) (T : String) (frames : List Frame)
    (h : T ∉ e.subs) :
    (∀ m ∈ (processFrames e frames).2.1, m.topic ≠ T) ∧
    ∃ (e' : Engine) (fr : Frame), fr.topic = T ∧ T ∉ e'.subs ∧
      (handleFrame e' fr).2.2 ≠ [] := by
  refine ⟨processFrames_gating e T frames h, ⟨[], [], [(1, [T])]⟩, ⟨0, T, 5, []⟩, rfl, ?_, ?_⟩
  · simp
  · simp [handleFrame]

/-- C5 witness: a node with no subscriptions receiving a `"t"`-frame
delivers nothing locally (and the relay example exists). -/
theorem claim_C5_witness :
    (∀ m ∈ (processFrames ⟨[], [], []⟩ [⟨0, "t", 5, [7]⟩]).2.1, m.topic ≠ "t") ∧
    ∃ (e' : Engine) (fr : Frame), fr.topic = "t" ∧ "t" ∉ e'.subs ∧
      (handleFrame e' fr).2.2 ≠ [] :=
  claim_C5 ⟨[], [], []⟩ "t" [⟨0, "t", 5, [7]⟩] (by decide)

/-- C6: in every environment the startup sequence of `main` dials the
one pre-configured bootstrap address and subscribes to the one
pre-configured topic; it listens on the pre-configured local address
exactly when the environment is not the browser (emscripten) build, and
skipping listening is not fatal — the rest of the startup still
happens. -/
theorem claim_C6 (emscripten : Bool) :
    ∃ acts, mainActions emscripten = some acts ∧
      MainAction.dial ⟨127, 0, 0, 1, 4242, true⟩ ∈ acts ∧
      MainAction.subscribe theTopic ∈ acts ∧
      ((∃ a, MainAction.listenOn a ∈ acts) ↔ emscripten = false) := by
  cases emscripten
  · refine ⟨[MainAction.listenOn ⟨0, 0, 0, 0, 4242, true⟩,
      MainAction.subscribe theTopic, MainAction.dial ⟨127, 0, 0, 1, 4242, true⟩,
      MainAction.runLoop], by decide, by decide, by decide, ?_⟩
    exact ⟨fun _ => rfl, fun _ => ⟨⟨0, 0, 0, 0, 4242, true⟩, by decide⟩⟩
  · refine ⟨[MainAction.subscribe theTopic, MainAction.dial ⟨127, 0, 0, 1, 4242, true⟩,
      MainAction.runLoop], by decide, by decide, by decide, ?_⟩
    constructor
    · rintro ⟨a, ha⟩
      simp [theTopic, buildTopic] at ha
    · intro hff
      simp at hff

/-- C7: every complete stdin line is published verbatim — the publish
list is exactly one call per line, in order, each under the single fixed
topic `theTopic` with payload the line's UTF-8 bytes (the encoding is
lossless: decoding returns the exact line); no other topic is ever
published to, and the loop itself returns `Ok(())`. -/
theorem claim_C7 (lines : List (List Nat)) :
    (runStdin lines).1 = lines.map (fun l => ⟨theTopic, utf8Encode l⟩) ∧
    (runStdin lines).2 = Except.ok () ∧
    (∀ p ∈ (runStdin lines).1, p.topic = theTopic) ∧
    ∀ l : List Nat, (∀ v ∈ l, ValidScalar v) →
      utf8Decode (utf8Encode l) = some l := by
  have h := runStdin_eq lines
  refine ⟨by rw [h], by rw [h], ?_, fun l hl => utf8Decode_utf8Encode l hl⟩
  intro p hp
  rw [h] at hp
  simp only [List.mem_map] at hp
  obtain ⟨l, -, rfl⟩ := hp
  rfl

/-- C7 witness: the line "he" (scalars 104, 101) is published once under
the fixed topic, and its bytes decode back to the exact line. -/
theorem claim_C7_witness :
    (runStdin [[104, 101]]).1 = [⟨theTopic, utf8Encode [104, 101]⟩] ∧
      utf8Decode (utf8Encode [104, 101]) = some [104, 101] :=
  ⟨(claim_C7 [[104, 101]]).1, (claim_C7 [[104, 101]]).2.2.2 [104, 101] (by decide)⟩

/-- C8: in any finite connection graph — cycles included — a single
published message causes at most `edges.length` re-broadcast events no
matter how long the flood runs (the dedup cache suppresses re-flooding),
and the flood reaches quiescence (empty in-flight queue) within
`floodPot` steps: it never loops forever. -/
theorem claim_C8 (edges : List (Nat × Nat)) (o : Nat) :
    (∀ fuel : Nat,
      (floodRun edges fuel (floodPublish edges o)).used.length ≤ edges.length) ∧
    (floodRun edges (floodPot edges (floodPublish edges o))
      (floodPublish edges o)).queue = [] :=
  ⟨fun fuel => floodInv_used_le edges _
      (floodInv_run edges fuel _ (floodInv_publish edges o)),
    floodRun_pot_empty edges _ _ (floodInv_publish edges o) le_rfl⟩

/-- C9: parsing a validly-formatted address string and re-serializing
the resulting address yields an equivalent address: the re-serialized
string parses to the very same address value (same carrier stack, same
endpoint). -/
theorem claim_C9 (s : List Char) (m : Multiaddr)
    (h : multiaddrParse s = some m) :
    multiaddrParse (multiaddrSerialize m) = some m :=
  multiaddrParse_serialize m (multiaddrParse_wf s m h)

/-- C9 witness: the bootstrap address literal of main.rs round-trips. -/
theorem claim_C9_witness :
    multiaddrParse (multiaddrSerialize ⟨127, 0, 0, 1, 4242, true⟩) =
      some ⟨127, 0, 0, 1, 4242, true⟩ :=
  claim_C9 "/ip4/127.0.0.1/tcp/4242/ws".toList ⟨127, 0, 0, 1, 4242, true⟩ (by decide)

/-- C10: in every environment, `main`'s startup sequence contains the
subscribe, the dial and the event-loop start, and before the first
subscribe there is no dial and the loop has not started: the local
interest in the topic is recorded before any connection can be
initiated and before the merged loop runs. -/
theorem claim_C10 (emscripten : Bool) :
    ∃ acts, mainActions emscripten = some acts ∧
      MainAction.subscribe theTopic ∈ acts ∧
      MainAction.dial ⟨127, 0, 0, 1, 4242, true⟩ ∈ acts ∧
      MainAction.runLoop ∈ acts ∧
      (acts.takeWhile (fun a => !a.isSubscribe)).all
        (fun a => !a.isDial && !a.isRun) = true := by
  cases emscripten
  · exact ⟨[MainAction.listenOn ⟨0, 0, 0, 0, 4242, true⟩,
      MainAction.subscribe theTopic, MainAction.dial ⟨127, 0, 0, 1, 4242, true⟩,
      MainAction.runLoop], by decide, by decide, by decide, by decide, by decide⟩
  · exact ⟨[MainAction.subscribe theTopic, MainAction.dial ⟨127, 0, 0, 1, 4242, true⟩,
      MainAction.runLoop], by decide, by decide, by decide, by decide, by decide⟩
